import Mathlib

/-!
Shallow embedding of `src/task-cli.js` (task-tracker-cli).

Conventions of the embedding:
* The data file's contents are modeled as `List Task`; timestamps
  (`new Date().toISOString()`) are modeled as `Nat` instants passed in as a
  `now` parameter (ISO-8601 UTC strings compare in the same order as the
  instants they denote).
* A task's stored `id` is a JavaScript value that may be a number or a
  string (the file is raw JSON), modeled by `JsId`.  JavaScript `Number(x)`
  coercion is modeled by `JsId.toNumber`, returning `none` for `NaN`;
  non-integral numeric forms (fractions, exponents, hex) are modeled as
  `none`, which agrees with the comparisons the program performs against
  integer ids obtained from `parseInt`.
* `process.exit(1)` paths are modeled by returning a `CmdResult` with
  `exitCode = 1` and everything after the exit not happening (in particular
  `saved = false` and the file unchanged).
* `console.log` / `console.error` output lines are collected in the
  `stdout` / `stderr` fields (message text transliterated to ASCII).
-/

namespace TaskCli

/-- Value of a decimal digit string (most significant digit first). -/
def digitsToNat (l : List Char) : Nat :=
  l.foldl (fun a c => 10 * a + (c.toNat - 48)) 0

/-- Model of JavaScript `parseInt(s, 10)`: skip leading whitespace, read an
optional sign, then the longest prefix of decimal digits; `NaN` (here `none`)
when that prefix is empty. -/
def parseIntDec (s : String) : Option Int :=
  let cs := s.toList.dropWhile Char.isWhitespace
  let sign : Int := if cs.head? = some '-' then -1 else 1
  let cs2 := if cs.head? = some '-' ∨ cs.head? = some '+' then cs.tail else cs
  let ds := cs2.takeWhile Char.isDigit
  if ds.isEmpty then none else some (sign * (digitsToNat ds : Int))

/-- A JavaScript value sitting in a task's `id` field: the program stores
numbers, but a hand-edited or legacy file may hold numeric-like strings. -/
inductive JsId where
  | num (n : Int)
  | str (s : String)
deriving DecidableEq

/-- Strip leading and trailing whitespace (the `trim` the JS string
coercions perform), over the character list. -/
def trimChars (cs : List Char) : List Char :=
  ((cs.dropWhile Char.isWhitespace).reverse.dropWhile Char.isWhitespace).reverse

/-- Model of JavaScript `Number(s)` on a string: trim whitespace, empty
gives `0`, an optional sign followed by digits gives that integer, anything
else is `NaN` (`none`). -/
def numOfString (s : String) : Option Int :=
  let cs := trimChars s.toList
  if cs.isEmpty then some 0
  else
    let sign : Int := if cs.head? = some '-' then -1 else 1
    let cs2 := if cs.head? = some '-' ∨ cs.head? = some '+' then cs.tail else cs
    if cs2 ≠ [] ∧ cs2.all Char.isDigit then some (sign * (digitsToNat cs2 : Int))
    else none

/-- `Number(t.id)` from the id-matching comparisons (`none` = `NaN`). -/
def JsId.toNumber : JsId → Option Int
  | .num n => some n
  | .str s => numOfString s

/-- Printable form of an id, as string interpolation renders it in JS. -/
def JsId.display : JsId → String
  | .num n => toString n
  | .str s => s

/-- A task record as stored in `task.json`. -/
structure Task where
  id : JsId
  name : String
  description : String
  status : String
  createdAt : Nat
  updatedAt : Nat
deriving DecidableEq

instance : Inhabited Task := ⟨⟨.num 0, "", "", "", 0, 0⟩⟩

/-- Outcome of one command invocation: the data file afterwards, whether
`saveTasks` ran, the process exit code, and the lines printed. -/
structure CmdResult where
  file : List Task
  saved : Bool
  exitCode : Nat
  stdout : List String
  stderr : List String
deriving DecidableEq

/-- `getNextId(tasks)`: coerce each stored id with `Number`, keep the
positive integers, and return their maximum plus one (or 1 if none). -/
def getNextId (tasks : List Task) : Int :=
  let ids := tasks.filterMap fun t =>
    (t.id.toNumber).bind fun n => if 0 < n then some n else none
  if ids.isEmpty then 1 else ids.foldl max 0 + 1

/-- `printTask(t)`: one formatted line (description segment omitted when the
description is empty, as `''` is falsy). -/
def printTask (t : Task) : String :=
  let d := JsId.display t.id
  let desc := if t.description = "" then "" else s!" — {t.description}"
  s!"[{d}] {t.name}{desc} | {t.status} | created: {t.createdAt} | updated: {t.updatedAt}"

/-- `Number(t.id) === id` for an `id` produced by `parseInt` (a `NaN` stored
id compares unequal to everything). -/
def idMatches (id : Int) (t : Task) : Bool :=
  t.id.toNumber == some id

/-- Model of `tasks.findIndex(p)` followed by in-place mutation of the found
element: rewrite the first element satisfying `p` with `f`. -/
def updateFirst (p : Task → Bool) (f : Task → Task) : List Task → List Task
  | [] => []
  | t :: ts => if p t then f t :: ts else t :: updateFirst p f ts

/-- `cmdAdd(args)`: usage error on no arguments; otherwise append a fresh
task (first argument the name, the rest joined as the description) and
save. -/
def cmdAdd (args : List String) (now : Nat) (file : List Task) : CmdResult :=
  match args with
  | [] => ⟨file, false, 1, [], ["Usage: add <name> [description...]"]⟩
  | name :: rest =>
    let description := if rest.isEmpty then "" else String.intercalate " " rest
    let tasks := file
    let id := getNextId tasks
    let task : Task :=
      { id := .num id, name := name, description := description,
        status := "todo", createdAt := now, updatedAt := now }
    ⟨tasks ++ [task], true, 0, [s!"Task added successfully (ID: {id})"], []⟩

/-- `cmdUpdate(args)`: needs at least two arguments; `parseInt` the id;
rewrite the first task whose coerced id matches, replacing its description
and refreshing `updatedAt`; error (no save) when the id is `NaN` or not
found. -/
def cmdUpdate (args : List String) (now : Nat) (file : List Task) : CmdResult :=
  match args with
  | a0 :: d0 :: drest =>
    match parseIntDec a0 with
    | none => ⟨file, false, 1, [], ["Error: id khong hop le"]⟩
    | some id =>
      let newDesc := String.intercalate " " (d0 :: drest)
      let tasks := file
      if tasks.any (idMatches id) then
        let tasks2 := updateFirst (idMatches id)
          (fun t => { t with description := newDesc, updatedAt := now }) tasks
        ⟨tasks2, true, 0, [s!"Task {id} updated"], []⟩
      else ⟨file, false, 1, [], [s!"Error: khong tim thay task voi id {id}"]⟩
  | _ => ⟨file, false, 1, [], ["Usage: update <id> <description...>"]⟩

/-- `cmdDelete(args)`: `parseInt` the id, drop every task whose coerced id
matches; error (no save) when the id is `NaN` or nothing was removed. -/
def cmdDelete (args : List String) (file : List Task) : CmdResult :=
  match args with
  | [] => ⟨file, false, 1, [], ["Usage: delete <id>"]⟩
  | a0 :: _ =>
    match parseIntDec a0 with
    | none => ⟨file, false, 1, [], ["Error: id khong hop le"]⟩
    | some id =>
      let tasks := file
      let tasks2 := tasks.filter fun t => !(idMatches id t)
      if tasks2.length = tasks.length then
        ⟨file, false, 1, [], [s!"Error: khong tim thay task voi id {id}"]⟩
      else ⟨tasks2, true, 0, [s!"Task {id} deleted"], []⟩

/-- `cmdMark(args, newStatus)`: `parseInt` the id, set the first matching
task's status to `newStatus` and refresh `updatedAt`; error (no save) when
the id is `NaN` or not found. -/
def cmdMark (args : List String) (newStatus : String) (now : Nat)
    (file : List Task) : CmdResult :=
  match args with
  | [] =>
    let verb := if newStatus = "done" then "mark-done" else "mark-in-progress"
    ⟨file, false, 1, [], [s!"Usage: {verb} <id>"]⟩
  | a0 :: _ =>
    match parseIntDec a0 with
    | none => ⟨file, false, 1, [], ["Error: id khong hop le"]⟩
    | some id =>
      let tasks := file
      if tasks.any (idMatches id) then
        let tasks2 := updateFirst (idMatches id)
          (fun t => { t with status := newStatus, updatedAt := now }) tasks
        ⟨tasks2, true, 0, [s!"Task {id} marked as {newStatus}"], []⟩
      else ⟨file, false, 1, [], [s!"Error: khong tim thay task voi id {id}"]⟩

/-- The three allowed statuses of the `list` filter. -/
def allowedStatuses : List String := ["todo", "in-progress", "done"]

/-- `cmdList(args)`: optional status filter (`""` models the falsy `null`,
and an explicit empty first argument is equally falsy); prints the matching
tasks or an informational empty message.  It never saves. -/
def cmdList (args : List String) (file : List Task) : CmdResult :=
  let filter := match args with | [] => "" | a :: _ => a
  if filter ≠ "" ∧ ¬ allowedStatuses.contains filter then
    ⟨file, false, 1, [], ["Usage: list [todo|in-progress|done]"]⟩
  else
    let tasks := file
    let toPrint := if filter ≠ "" then tasks.filter (fun t => t.status == filter) else tasks
    if toPrint.isEmpty then ⟨file, false, 0, ["Khong co task nao de hien thi."], []⟩
    else ⟨file, false, 0, toPrint.map printTask, []⟩

/-- What `loadTasks` cares about in a successfully parsed JSON document:
whether it is an array (then: the tasks it holds) or any other value. -/
inductive JsonVal where
  | arr (tasks : List Task)
  | other
deriving DecidableEq

/-- Result of `loadTasks()`: the collection, and whether the corrupt-data
warning was printed. -/
structure LoadResult where
  tasks : List Task
  warned : Bool
deriving DecidableEq

/-- `loadTasks()` over the data file's state (`none` = file absent) and a
JSON parser (`parse raw = none` models `JSON.parse` throwing): absent or
blank content gives an empty collection silently; a parse failure warns and
gives an empty collection; a non-array document gives an empty collection
silently. -/
def loadTasks : Option String → (String → Option JsonVal) → LoadResult
  | none, _ => ⟨[], false⟩
  | some raw, parse =>
    if (trimChars raw.toList).isEmpty then ⟨[], false⟩
    else
      match parse raw with
      | none => ⟨[], true⟩
      | some (.arr ts) => ⟨ts, false⟩
      | some .other => ⟨[], false⟩

/-- The mutating and listing commands the dispatcher can route to, with
their argument lists (the two mark verbs fix the status as `main` does). -/
inductive Op where
  | add (args : List String)
  | update (args : List String)
  | delete (args : List String)
  | markInProgress (args : List String)
  | markDone (args : List String)
  | list (args : List String)
deriving DecidableEq

/-- Dispatch one operation at one instant against the current file. -/
def applyOp (op : Op) (now : Nat) (file : List Task) : CmdResult :=
  match op with
  | .add args => cmdAdd args now file
  | .update args => cmdUpdate args now file
  | .delete args => cmdDelete args file
  | .markInProgress args => cmdMark args "in-progress" now file
  | .markDone args => cmdMark args "done" now file
  | .list args => cmdList args file

/-- Run a sequence of timestamped operations, threading the data file. -/
def runOps (ops : List (Op × Nat)) (file : List Task) : List Task :=
  match ops with
  | [] => file
  | (op, now) :: rest => runOps rest (applyOp op now file).file

/-- The ids handed out by the `add` invocations of a run, in order (an `add`
with arguments always succeeds and assigns `getNextId` of the current
collection). -/
def assignedIds (ops : List (Op × Nat)) (file : List Task) : List Int :=
  match ops with
  | [] => []
  | (op, now) :: rest =>
    let r := applyOp op now file
    match op with
    | .add (_ :: _) => getNextId file :: assignedIds rest r.file
    | _ => assignedIds rest r.file

/-- The operations' instants are nondecreasing and start no earlier than the
given bound (the real program reads a monotone wall clock). -/
def TimesMono : Nat → List (Op × Nat) → Prop
  | _, [] => True
  | b, (_, t) :: rest => b ≤ t ∧ TimesMono t rest

instance instDecTimesMono : ∀ b ops, Decidable (TimesMono b ops)
  | _, [] => .isTrue trivial
  | b, (_, t) :: rest =>
    have : Decidable (TimesMono t rest) := instDecTimesMono t rest
    inferInstanceAs (Decidable (b ≤ t ∧ TimesMono t rest))

/-- The positive-integer coerced ids of a collection (the list `getNextId`
maximises over). -/
def validIds (tasks : List Task) : List Int :=
  tasks.filterMap fun t =>
    (t.id.toNumber).bind fun n => if 0 < n then some n else none

/-- Largest valid id of a collection (0 when there is none). -/
def storeMax (tasks : List Task) : Int :=
  (validIds tasks).foldl max 0

/-- At every `delete` step of the run, the largest valid id of the
collection is unchanged (the deleted tasks did not hold the maximum). -/
def DeletesPreserveMax : List (Op × Nat) → List Task → Prop
  | [], _ => True
  | (op, now) :: rest, s =>
    (match op with
     | .delete _ => storeMax ((applyOp op now s).file) = storeMax s
     | _ => True) ∧ DeletesPreserveMax rest ((applyOp op now s).file)

instance instDecDeletesPreserveMax :
    ∀ ops s, Decidable (DeletesPreserveMax ops s)
  | [], _ => .isTrue trivial
  | (op, now) :: rest, s =>
    have : Decidable (DeletesPreserveMax rest ((applyOp op now s).file)) :=
      instDecDeletesPreserveMax rest ((applyOp op now s).file)
    match op with
    | .add _a => inferInstanceAs (Decidable (True ∧ _))
    | .update _a => inferInstanceAs (Decidable (True ∧ _))
    | .delete a =>
      inferInstanceAs (Decidable (storeMax ((applyOp (.delete a) now s).file) = storeMax s ∧ _))
    | .markInProgress _a => inferInstanceAs (Decidable (True ∧ _))
    | .markDone _a => inferInstanceAs (Decidable (True ∧ _))
    | .list _a => inferInstanceAs (Decidable (True ∧ _))

/-! ### Helper lemmas about list folds and `updateFirst` -/

theorem le_foldl_max (l : List Int) : ∀ a : Int, a ≤ l.foldl max a := by
  induction l with
  | nil => intro a; exact le_refl a
  | cons x xs ih =>
    intro a
    exact le_trans (le_max_left a x) (ih (max a x))

theorem mem_le_foldl_max (l : List Int) : ∀ (a x : Int), x ∈ l → x ≤ l.foldl max a := by
  induction l with
  | nil => intro a x hx; cases hx
  | cons y ys ih =>
    intro a x hx
    rcases List.mem_cons.mp hx with h | h
    · subst h
      exact le_trans (le_max_right a x) (le_foldl_max ys (max a x))
    · exact ih (max a y) x h

theorem foldl_max_append (l : List Int) (a x : Int) :
    (l ++ [x]).foldl max a = max (l.foldl max a) x := by
  induction l generalizing a with
  | nil => rfl
  | cons y ys ih =>
    simp only [List.cons_append, List.foldl_cons]
    exact ih (max a y)

theorem storeMax_nonneg (s : List Task) : 0 ≤ storeMax s :=
  le_foldl_max (validIds s) 0

theorem getNextId_eq (s : List Task) : getNextId s = storeMax s + 1 := by
  unfold getNextId storeMax validIds
  by_cases h :
      (s.filterMap fun t =>
        (t.id.toNumber).bind fun n => if 0 < n then some n else none).isEmpty = true
  · rw [if_pos h]
    rw [List.isEmpty_iff] at h
    rw [h]
    rfl
  · rw [if_neg h]

theorem getNextId_pos (s : List Task) : 0 < getNextId s := by
  rw [getNextId_eq]
  have := storeMax_nonneg s
  omega

theorem mem_validIds_lt_getNextId (s : List Task) (x : Int) (hx : x ∈ validIds s) :
    x < getNextId s := by
  rw [getNextId_eq]
  have h := mem_le_foldl_max (validIds s) 0 x hx
  unfold storeMax
  omega

theorem mem_validIds_of_mem (s : List Task) (t : Task) (n : Int)
    (ht : t ∈ s) (hid : t.id = .num n) (hpos : 0 < n) : n ∈ validIds s := by
  unfold validIds
  refine List.mem_filterMap.mpr ⟨t, ht, ?_⟩
  rw [hid]
  simp [JsId.toNumber, hpos]

theorem validIds_append (s s' : List Task) :
    validIds (s ++ s') = validIds s ++ validIds s' := by
  unfold validIds
  exact List.filterMap_append s s' _

theorem validIds_singleton_num (t : Task) (n : Int) (hid : t.id = .num n)
    (hpos : 0 < n) : validIds [t] = [n] := by
  unfold validIds
  simp [hid, JsId.toNumber, hpos]

theorem storeMax_append_new (s : List Task) (t : Task)
    (hid : t.id = .num (storeMax s + 1)) :
    storeMax (s ++ [t]) = storeMax s + 1 := by
  have hpos : (0 : Int) < storeMax s + 1 := by
    have := storeMax_nonneg s; omega
  unfold storeMax
  rw [validIds_append, validIds_singleton_num t _ hid hpos, foldl_max_append]
  have h0 : (validIds s).foldl max 0 = storeMax s := rfl
  rw [h0]
  have := storeMax_nonneg s
  omega

theorem length_updateFirst (p : Task → Bool) (f : Task → Task) :
    ∀ s : List Task, (updateFirst p f s).length = s.length := by
  intro s
  induction s with
  | nil => rfl
  | cons t ts ih =>
    unfold updateFirst
    by_cases h : p t
    · simp [h]
    · simp [h, ih]

theorem map_updateFirst {α : Type} (p : Task → Bool) (f : Task → Task)
    (g : Task → α) (hf : ∀ t, g (f t) = g t) :
    ∀ s : List Task, (updateFirst p f s).map g = s.map g := by
  intro s
  induction s with
  | nil => rfl
  | cons t ts ih =>
    unfold updateFirst
    by_cases h : p t
    · simp [h, hf]
    · simp [h, ih]

theorem validIds_cons (t : Task) (ts : List Task) :
    validIds (t :: ts) =
      match (t.id.toNumber).bind (fun n => if 0 < n then some n else none) with
      | none => validIds ts
      | some v => v :: validIds ts := by
  unfold validIds
  rw [List.filterMap_cons]
  cases (t.id.toNumber).bind fun n => if 0 < n then some n else none with
  | none => rfl
  | some v => rfl

theorem validIds_updateFirst (p : Task → Bool) (f : Task → Task)
    (hf : ∀ t, (f t).id = t.id) (s : List Task) :
    validIds (updateFirst p f s) = validIds s := by
  induction s with
  | nil => rfl
  | cons t ts ih =>
    by_cases h : p t = true
    · have h1 : updateFirst p f (t :: ts) = f t :: ts := by
        simp only [updateFirst]
        rw [if_pos h]
      rw [h1, validIds_cons, validIds_cons, hf t]
    · have h1 : updateFirst p f (t :: ts) = t :: updateFirst p f ts := by
        simp only [updateFirst]
        rw [if_neg h]
      rw [h1, validIds_cons, validIds_cons, ih]

theorem mem_updateFirst (p : Task → Bool) (f : Task → Task) :
    ∀ (s : List Task) (u : Task), u ∈ updateFirst p f s →
      u ∈ s ∨ ∃ t ∈ s, u = f t := by
  intro s
  induction s with
  | nil => intro u hu; cases hu
  | cons t ts ih =>
    intro u hu
    unfold updateFirst at hu
    by_cases h : p t
    · simp only [h, if_true] at hu
      rcases List.mem_cons.mp hu with h1 | h1
      · exact Or.inr ⟨t, List.mem_cons_self t ts, h1⟩
      · exact Or.inl (List.mem_cons_of_mem t h1)
    · simp only [h, if_false] at hu
      rcases List.mem_cons.mp hu with h1 | h1
      · exact Or.inl (h1 ▸ List.mem_cons_self t ts)
      · rcases ih u h1 with h2 | ⟨v, hv, hvu⟩
        · exact Or.inl (List.mem_cons_of_mem t h2)
        · exact Or.inr ⟨v, List.mem_cons_of_mem t hv, hvu⟩

theorem any_first_decomp (p : Task → Bool) (f : Task → Task) :
    ∀ s : List Task, s.any p = true →
    ∃ pre t post, s = pre ++ t :: post ∧ (∀ u ∈ pre, p u = false) ∧ p t = true ∧
      updateFirst p f s = pre ++ f t :: post := by
  intro s
  induction s with
  | nil => intro h; simp at h
  | cons x xs ih =>
    intro h
    by_cases hx : p x
    · refine ⟨[], x, xs, rfl, ?_, hx, ?_⟩
      · intro u hu
        cases hu
      · simp [updateFirst, hx]
    · have hxs : xs.any p = true := by
        rcases List.any_eq_true.mp h with ⟨u, hu, hpu⟩
        rcases List.mem_cons.mp hu with h1 | h1
        · exact absurd (h1 ▸ hpu) (by simpa using hx)
        · exact List.any_eq_true.mpr ⟨u, h1, hpu⟩
      rcases ih hxs with ⟨pre, t, post, hs, hpre, hpt, hupd⟩
      refine ⟨x :: pre, t, post, by rw [hs]; rfl, ?_, hpt, ?_⟩
      · intro u hu
        rcases List.mem_cons.mp hu with h1 | h1
        · subst h1; simpa using hx
        · exact hpre u h1
      · unfold updateFirst
        simp only [hx, if_false]
        rw [hupd]
        rfl

theorem updateFirst_append_first (p : Task → Bool) (f : Task → Task)
    (t : Task) (post : List Task) (hpt : p t = true) :
    ∀ pre : List Task, (∀ u ∈ pre, p u = false) →
      updateFirst p f (pre ++ t :: post) = pre ++ f t :: post := by
  intro pre
  induction pre with
  | nil => intro _; simp [updateFirst, hpt]
  | cons x xs ih =>
    intro hpre
    have hx : p x = false := hpre x (List.mem_cons_self x xs)
    have h1 : updateFirst p f ((x :: xs) ++ t :: post) =
        x :: updateFirst p f (xs ++ t :: post) := by
      show updateFirst p f (x :: (xs ++ t :: post)) = _
      simp only [updateFirst]
      rw [if_neg (by simp [hx])]
    rw [h1, ih (fun u hu => hpre u (List.mem_cons_of_mem x hu))]
    rfl

theorem find?_append_first (p : Task → Bool) (t : Task) (post : List Task)
    (hpt : p t = true) :
    ∀ pre : List Task, (∀ u ∈ pre, p u = false) →
      (pre ++ t :: post).find? p = some t := by
  intro pre
  induction pre with
  | nil => intro _; simp [List.find?, hpt]
  | cons x xs ih =>
    intro hpre
    have hx : p x = false := hpre x (List.mem_cons_self x xs)
    simp only [List.cons_append, List.find?, hx]
    exact ih (fun u hu => hpre u (List.mem_cons_of_mem x hu))

theorem length_filter_not_ne (p : Task → Bool) :
    ∀ s : List Task, s.any p = true →
      (s.filter fun x => !(p x)).length ≠ s.length := by
  intro s
  induction s with
  | nil => intro h; simp at h
  | cons x xs ih =>
    intro h
    by_cases hx : p x = true
    · have hle := List.length_filter_le (fun x => !(p x)) xs
      have h1 : (x :: xs).filter (fun x => !(p x)) = xs.filter (fun x => !(p x)) := by
        rw [List.filter_cons]
        rw [if_neg (by simp [hx])]
      rw [h1, List.length_cons]
      omega
    · have hxs : xs.any p = true := by
        rcases List.any_eq_true.mp h with ⟨u, hu, hpu⟩
        rcases List.mem_cons.mp hu with h1 | h1
        · exact absurd (h1 ▸ hpu) (by simpa using hx)
        · exact List.any_eq_true.mpr ⟨u, h1, hpu⟩
      have h2 := ih hxs
      have h1 : (x :: xs).filter (fun x => !(p x)) = x :: xs.filter (fun x => !(p x)) := by
        rw [List.filter_cons]
        rw [if_pos (by simp [Bool.not_eq_true] at hx ⊢; exact hx)]
      rw [h1, List.length_cons, List.length_cons]
      omega

theorem storeMax_updateFirst (p : Task → Bool) (f : Task → Task)
    (hf : ∀ t, (f t).id = t.id) (s : List Task) :
    storeMax (updateFirst p f s) = storeMax s := by
  unfold storeMax
  rw [validIds_updateFirst p f hf s]

/-! ### Per-handler facts: what each command does to the file and when it
saves -/

theorem cmdList_result (args : List String) (file : List Task) :
    (cmdList args file).saved = false ∧ (cmdList args file).file = file := by
  unfold cmdList
  dsimp only
  repeat' split
  all_goals exact ⟨rfl, rfl⟩

theorem cmdAdd_saved_iff (args : List String) (now : Nat) (file : List Task) :
    (cmdAdd args now file).saved = true ↔ (cmdAdd args now file).exitCode = 0 := by
  cases args <;> simp [cmdAdd]

theorem cmdUpdate_saved_iff (args : List String) (now : Nat) (file : List Task) :
    (cmdUpdate args now file).saved = true ↔ (cmdUpdate args now file).exitCode = 0 := by
  unfold cmdUpdate
  split
  · split
    · simp
    · dsimp only
      split <;> simp
  · simp

theorem cmdDelete_saved_iff (args : List String) (file : List Task) :
    (cmdDelete args file).saved = true ↔ (cmdDelete args file).exitCode = 0 := by
  unfold cmdDelete
  split
  · simp
  · split
    · simp
    · dsimp only
      split <;> simp

theorem cmdMark_saved_iff (args : List String) (newStatus : String) (now : Nat)
    (file : List Task) :
    (cmdMark args newStatus now file).saved = true ↔
      (cmdMark args newStatus now file).exitCode = 0 := by
  unfold cmdMark
  split
  · simp
  · split
    · simp
    · dsimp only
      split <;> simp

theorem storeMax_cmdUpdate (args : List String) (now : Nat) (file : List Task) :
    storeMax ((cmdUpdate args now file).file) = storeMax file := by
  unfold cmdUpdate
  split
  · split
    · rfl
    · dsimp only
      split
      · refine storeMax_updateFirst _ _ (fun t => ?_) file
        rfl
      · rfl
  · rfl

theorem storeMax_cmdMark (args : List String) (newStatus : String) (now : Nat)
    (file : List Task) :
    storeMax ((cmdMark args newStatus now file).file) = storeMax file := by
  unfold cmdMark
  split
  · rfl
  · split
    · rfl
    · dsimp only
      split
      · refine storeMax_updateFirst _ _ (fun t => ?_) file
        rfl
      · rfl

theorem cmdAdd_cons_file (name : String) (rest : List String) (now : Nat)
    (file : List Task) :
    (cmdAdd (name :: rest) now file).file = file ++
      [{ id := .num (getNextId file), name := name,
         description := if rest.isEmpty then "" else String.intercalate " " rest,
         status := "todo", createdAt := now, updatedAt := now }] := rfl

theorem storeMax_cmdAdd_cons (name : String) (rest : List String) (now : Nat)
    (file : List Task) :
    storeMax ((cmdAdd (name :: rest) now file).file) = storeMax file + 1 := by
  rw [cmdAdd_cons_file]
  exact storeMax_append_new file _ (by rw [getNextId_eq])

/-! ### Ids assigned along a run -/

theorem assignedIds_bounded_sorted :
    ∀ (ops : List (Op × Nat)) (s : List Task), DeletesPreserveMax ops s →
      (∀ x ∈ assignedIds ops s, storeMax s < x) ∧
      (assignedIds ops s).Pairwise (· < ·) := by
  intro ops
  induction ops with
  | nil =>
    intro s _
    constructor
    · intro x hx
      cases hx
    · exact List.Pairwise.nil
  | cons opn rest ih =>
    obtain ⟨op, now⟩ := opn
    intro s hdel
    obtain ⟨hstep, hrest⟩ := hdel
    cases op with
    | add args =>
      cases args with
      | nil =>
        exact ih s hrest
      | cons name rs =>
        have heq : assignedIds ((Op.add (name :: rs), now) :: rest) s =
            getNextId s ::
              assignedIds rest ((applyOp (.add (name :: rs)) now s).file) := rfl
        have hmax : storeMax ((applyOp (.add (name :: rs)) now s).file) =
            storeMax s + 1 := storeMax_cmdAdd_cons name rs now s
        obtain ⟨hb, hp⟩ := ih _ hrest
        rw [heq]
        constructor
        · intro x hx
          rcases List.mem_cons.mp hx with h1 | h1
          · subst h1
            rw [getNextId_eq]
            omega
          · have hb2 := hb x h1
            rw [hmax] at hb2
            omega
        · refine List.pairwise_cons.mpr ⟨?_, hp⟩
          intro x hx
          have hb2 := hb x hx
          rw [hmax] at hb2
          rw [getNextId_eq]
          omega
    | update args =>
      have hmax : storeMax ((applyOp (.update args) now s).file) = storeMax s :=
        storeMax_cmdUpdate args now s
      obtain ⟨hb, hp⟩ := ih _ hrest
      refine ⟨?_, hp⟩
      intro x hx
      have hb2 := hb x hx
      rw [hmax] at hb2
      exact hb2
    | delete args =>
      have hmax : storeMax ((applyOp (.delete args) now s).file) = storeMax s := hstep
      obtain ⟨hb, hp⟩ := ih _ hrest
      refine ⟨?_, hp⟩
      intro x hx
      have hb2 := hb x hx
      rw [hmax] at hb2
      exact hb2
    | markInProgress args =>
      have hmax : storeMax ((applyOp (.markInProgress args) now s).file) = storeMax s :=
        storeMax_cmdMark args "in-progress" now s
      obtain ⟨hb, hp⟩ := ih _ hrest
      refine ⟨?_, hp⟩
      intro x hx
      have hb2 := hb x hx
      rw [hmax] at hb2
      exact hb2
    | markDone args =>
      have hmax : storeMax ((applyOp (.markDone args) now s).file) = storeMax s :=
        storeMax_cmdMark args "done" now s
      obtain ⟨hb, hp⟩ := ih _ hrest
      refine ⟨?_, hp⟩
      intro x hx
      have hb2 := hb x hx
      rw [hmax] at hb2
      exact hb2
    | list args =>
      have hfile : (applyOp (.list args) now s).file = s := (cmdList_result args s).2
      obtain ⟨hb, hp⟩ := ih _ hrest
      refine ⟨?_, hp⟩
      intro x hx
      have hb2 := hb x hx
      rw [hfile] at hb2
      exact hb2

/-! ### The reachable-store invariant -/

/-- The status is one of the three enumerated values. -/
def StatusOk (t : Task) : Prop :=
  t.status = "todo" ∨ t.status = "in-progress" ∨ t.status = "done"

/-- A well-formed task whose timestamps are bounded by the clock value `b`. -/
def GoodTask (b : Nat) (t : Task) : Prop :=
  (∃ n : Int, t.id = .num n ∧ 0 < n) ∧ StatusOk t ∧
    t.createdAt ≤ t.updatedAt ∧ t.updatedAt ≤ b

/-- Collection invariant carried through a run: every task well formed at
clock `b`, and the stored ids pairwise distinct. -/
def Inv (s : List Task) (b : Nat) : Prop :=
  (∀ t ∈ s, GoodTask b t) ∧ s.Pairwise (fun a c => a.id ≠ c.id)

/-- The invariant the spec states (no clock bound): ids unique positive
integers, status enumerated, `updatedAt ≥ createdAt`. -/
def GoodStore (s : List Task) : Prop :=
  (∀ t ∈ s,
    (∃ n : Int, t.id = .num n ∧ 0 < n) ∧ StatusOk t ∧ t.createdAt ≤ t.updatedAt)
  ∧ s.Pairwise (fun a c => a.id ≠ c.id)

theorem goodStore_of_inv (s : List Task) (b : Nat) (h : Inv s b) : GoodStore s := by
  obtain ⟨hmem, hpw⟩ := h
  refine ⟨?_, hpw⟩
  intro t ht
  obtain ⟨h1, h2, h3, _⟩ := hmem t ht
  exact ⟨h1, h2, h3⟩

theorem goodTask_mono (b b' : Nat) (t : Task) (hbb : b ≤ b') (h : GoodTask b t) :
    GoodTask b' t := by
  obtain ⟨h1, h2, h3, h4⟩ := h
  exact ⟨h1, h2, h3, le_trans h4 hbb⟩

theorem inv_mono (s : List Task) (b b' : Nat) (hbb : b ≤ b') (h : Inv s b) :
    Inv s b' := by
  obtain ⟨hmem, hpw⟩ := h
  exact ⟨fun t ht => goodTask_mono b b' t hbb (hmem t ht), hpw⟩

theorem inv_updateFirst (p : Task → Bool) (f : Task → Task) (s : List Task)
    (b now : Nat) (hb : b ≤ now)
    (hf_id : ∀ t, (f t).id = t.id)
    (hf_good : ∀ t, GoodTask b t → GoodTask now (f t))
    (h : Inv s b) : Inv (updateFirst p f s) now := by
  obtain ⟨hmem, hpw⟩ := h
  constructor
  · intro u hu
    rcases mem_updateFirst p f s u hu with h1 | ⟨t, ht, rfl⟩
    · exact goodTask_mono b now u hb (hmem u h1)
    · exact hf_good t (hmem t ht)
  · have hm := map_updateFirst p f Task.id hf_id s
    have h1 : ((updateFirst p f s).map Task.id).Pairwise (fun a c => a ≠ c) := by
      rw [hm]
      exact List.pairwise_map.mpr hpw
    exact List.pairwise_map.mp h1

theorem inv_cmdAdd (args : List String) (now : Nat) (s : List Task) (b : Nat)
    (hb : b ≤ now) (h : Inv s b) : Inv (cmdAdd args now s).file now := by
  cases args with
  | nil => exact inv_mono s b now hb h
  | cons name rs =>
    rw [cmdAdd_cons_file]
    obtain ⟨hmem, hpw⟩ := h
    constructor
    · intro t ht
      rcases List.mem_append.mp ht with h1 | h1
      · exact goodTask_mono b now t hb (hmem t h1)
      · rw [List.mem_singleton] at h1
        subst h1
        exact ⟨⟨getNextId s, rfl, getNextId_pos s⟩, Or.inl rfl, le_refl now, le_refl now⟩
    · rw [List.pairwise_append]
      refine ⟨hpw, by simp, ?_⟩
      intro a ha c hc
      rw [List.mem_singleton] at hc
      subst hc
      obtain ⟨⟨n, hid, hpos⟩, _⟩ := hmem a ha
      have hn := mem_validIds_of_mem s a n ha hid hpos
      have hlt := mem_validIds_lt_getNextId s n hn
      rw [hid]
      simp only [ne_eq, JsId.num.injEq]
      omega

theorem inv_cmdUpdate (args : List String) (now : Nat) (s : List Task) (b : Nat)
    (hb : b ≤ now) (h : Inv s b) : Inv (cmdUpdate args now s).file now := by
  unfold cmdUpdate
  split
  · split
    · exact inv_mono s b now hb h
    · dsimp only
      split
      · refine inv_updateFirst _ _ s b now hb (fun t => rfl) ?_ h
        intro t ⟨h1, h2, h3, h4⟩
        exact ⟨h1, h2, by simp; omega, le_refl now⟩
      · exact inv_mono s b now hb h
  · exact inv_mono s b now hb h

theorem inv_cmdDelete (args : List String) (s : List Task) (b now : Nat)
    (hb : b ≤ now) (h : Inv s b) : Inv (cmdDelete args s).file now := by
  unfold cmdDelete
  split
  · exact inv_mono s b now hb h
  · split
    · exact inv_mono s b now hb h
    · dsimp only
      split
      · exact inv_mono s b now hb h
      · obtain ⟨hmem, hpw⟩ := h
        constructor
        · intro t ht
          exact goodTask_mono b now t hb (hmem t (List.mem_of_mem_filter ht))
        · exact List.Pairwise.sublist (List.filter_sublist s) hpw

theorem inv_cmdMark (args : List String) (newStatus : String) (now : Nat)
    (s : List Task) (b : Nat) (hb : b ≤ now)
    (hstat : newStatus = "todo" ∨ newStatus = "in-progress" ∨ newStatus = "done")
    (h : Inv s b) : Inv (cmdMark args newStatus now s).file now := by
  unfold cmdMark
  split
  · exact inv_mono s b now hb h
  · split
    · exact inv_mono s b now hb h
    · dsimp only
      split
      · refine inv_updateFirst _ _ s b now hb (fun t => rfl) ?_ h
        intro t ⟨h1, _, h3, h4⟩
        exact ⟨h1, hstat, by simp; omega, le_refl now⟩
      · exact inv_mono s b now hb h

theorem inv_cmdList (args : List String) (s : List Task) (b now : Nat)
    (hb : b ≤ now) (h : Inv s b) : Inv (cmdList args s).file now := by
  rw [(cmdList_result args s).2]
  exact inv_mono s b now hb h

theorem inv_applyOp (op : Op) (now : Nat) (s : List Task) (b : Nat)
    (hb : b ≤ now) (h : Inv s b) : Inv (applyOp op now s).file now := by
  cases op with
  | add args => exact inv_cmdAdd args now s b hb h
  | update args => exact inv_cmdUpdate args now s b hb h
  | delete args => exact inv_cmdDelete args s b now hb h
  | markInProgress args =>
    exact inv_cmdMark args "in-progress" now s b hb (Or.inr (Or.inl rfl)) h
  | markDone args =>
    exact inv_cmdMark args "done" now s b hb (Or.inr (Or.inr rfl)) h
  | list args => exact inv_cmdList args s b now hb h

theorem inv_runOps : ∀ (ops : List (Op × Nat)) (s : List Task) (b : Nat),
    Inv s b → TimesMono b ops → ∃ b', Inv (runOps ops s) b' := by
  intro ops
  induction ops with
  | nil =>
    intro s b h _
    exact ⟨b, h⟩
  | cons opn rest ih =>
    obtain ⟨op, now⟩ := opn
    intro s b h ht
    obtain ⟨hb, htrest⟩ := ht
    exact ih _ now (inv_applyOp op now s b hb h) htrest

theorem names_cmdUpdate (args : List String) (now : Nat) (file : List Task) :
    (cmdUpdate args now file).file.map Task.name = file.map Task.name := by
  unfold cmdUpdate
  split
  · split
    · rfl
    · dsimp only
      split
      · refine map_updateFirst _ _ Task.name (fun t => ?_) file
        rfl
      · rfl
  · rfl

theorem names_cmdMark (args : List String) (newStatus : String) (now : Nat)
    (file : List Task) :
    (cmdMark args newStatus now file).file.map Task.name = file.map Task.name := by
  unfold cmdMark
  split
  · rfl
  · split
    · rfl
    · dsimp only
      split
      · refine map_updateFirst _ _ Task.name (fun t => ?_) file
        rfl
      · rfl

theorem names_cmdDelete (args : List String) (file : List Task) :
    ((cmdDelete args file).file.map Task.name).Sublist (file.map Task.name) := by
  unfold cmdDelete
  split
  · exact List.Sublist.refl _
  · split
    · exact List.Sublist.refl _
    · dsimp only
      split
      · exact List.Sublist.refl _
      · exact List.Sublist.map Task.name (List.filter_sublist file)

theorem any_idMatches_false (file : List Task) (id : Int)
    (hno : ∀ t ∈ file, t.id.toNumber ≠ some id) :
    file.any (idMatches id) = false := by
  rw [List.any_eq_false]
  intro t ht
  simp only [idMatches, beq_iff_eq]
  exact hno t ht

theorem filter_idMatches_self (file : List Task) (id : Int)
    (hno : ∀ t ∈ file, t.id.toNumber ≠ some id) :
    (file.filter fun t => !(idMatches id t)) = file := by
  rw [List.filter_eq_self]
  intro t ht
  simp only [idMatches, Bool.not_eq_true', beq_eq_false_iff_ne, ne_eq]
  exact hno t ht

/-! ### The claims -/

/-- C1, counterexample: after `add`, `delete 1`, `add`, the two `add`
invocations are both assigned id 1 — an id is reused and the assigned ids
are not strictly increasing once a deletion removes the highest id. -/
theorem c1_counterexample :
    assignedIds [(Op.add ["Task A"], 0), (Op.delete ["1"], 1), (Op.add ["Task B"], 2)] []
      = [1, 1]
    ∧ ¬ (assignedIds
          [(Op.add ["Task A"], 0), (Op.delete ["1"], 1), (Op.add ["Task B"], 2)]
          []).Pairwise (· < ·) := by
  constructor
  · decide
  · decide

/-- C1 (amended): every new id is `max(valid existing ids) + 1` (so `1` on an
empty store), and over any run of the six operations in which no `delete`
removes the task holding the current maximum id, the ids assigned by `add`
are positive and strictly increasing in creation order — in particular
pairwise distinct, so never reused. -/
theorem c1_ids_increasing (ops : List (Op × Nat))
    (hdel : DeletesPreserveMax ops []) :
    (∀ x ∈ assignedIds ops [], 0 < x)
    ∧ (assignedIds ops []).Pairwise (· < ·)
    ∧ (∀ s : List Task, getNextId s = storeMax s + 1) := by
  obtain ⟨hb, hp⟩ := assignedIds_bounded_sorted ops [] hdel
  refine ⟨?_, hp, fun s => getNextId_eq s⟩
  intro x hx
  have h := hb x hx
  have h0 : storeMax ([] : List Task) = 0 := rfl
  omega

/-- Witness for C1 (amended) at a concrete run. -/
theorem c1_ids_increasing_witness :
    DeletesPreserveMax
      [(Op.add ["A"], 0), (Op.add ["B"], 1), (Op.delete ["1"], 2), (Op.add ["C"], 3)] []
    ∧ ((∀ x ∈ assignedIds
          [(Op.add ["A"], 0), (Op.add ["B"], 1), (Op.delete ["1"], 2), (Op.add ["C"], 3)]
          [], 0 < x)
       ∧ (assignedIds
          [(Op.add ["A"], 0), (Op.add ["B"], 1), (Op.delete ["1"], 2), (Op.add ["C"], 3)]
          []).Pairwise (· < ·)
       ∧ (∀ s : List Task, getNextId s = storeMax s + 1)) :=
  ⟨by decide, c1_ids_increasing _ (by decide)⟩

/-- C2, counterexample: a `list` invocation on a nonempty store completes
with exit code 0 but performs no save. -/
theorem c2_counterexample :
    (cmdList [] [⟨.num 1, "Task A", "", "todo", 0, 0⟩]).saved = false
    ∧ (cmdList [] [⟨.num 1, "Task A", "", "todo", 0, 0⟩]).exitCode = 0 := by
  constructor
  · decide
  · decide

/-- C2 (amended): `list` never saves and leaves the data file unchanged;
each of the mutating handlers (`add`, `update`, `delete`, `mark-in-progress`,
`mark-done`) saves exactly when it completes with exit code 0. -/
theorem c2_save_behavior (args : List String) (now : Nat) (file : List Task) :
    (cmdList args file).saved = false
    ∧ (cmdList args file).file = file
    ∧ ((cmdAdd args now file).saved = true ↔ (cmdAdd args now file).exitCode = 0)
    ∧ ((cmdUpdate args now file).saved = true ↔ (cmdUpdate args now file).exitCode = 0)
    ∧ ((cmdDelete args file).saved = true ↔ (cmdDelete args file).exitCode = 0)
    ∧ ((cmdMark args "in-progress" now file).saved = true ↔
        (cmdMark args "in-progress" now file).exitCode = 0)
    ∧ ((cmdMark args "done" now file).saved = true ↔
        (cmdMark args "done" now file).exitCode = 0) :=
  ⟨(cmdList_result args file).1, (cmdList_result args file).2,
   cmdAdd_saved_iff args now file, cmdUpdate_saved_iff args now file,
   cmdDelete_saved_iff args file, cmdMark_saved_iff args "in-progress" now file,
   cmdMark_saved_iff args "done" now file⟩

/-- C3, counterexample: `add` invoked with a single empty-string argument is
not a usage error — it succeeds and creates a task whose name is empty. -/
theorem c3_counterexample :
    (cmdAdd [""] 0 []).exitCode = 0 ∧ (cmdAdd [""] 0 []).saved = true
    ∧ (cmdAdd [""] 0 []).file = [⟨.num 1, "", "", "todo", 0, 0⟩] := by
  refine ⟨?_, ?_, ?_⟩ <;> decide

/-- C3 (amended): `add` with no arguments is a usage error with exit code 1
and no save; otherwise the created task's name is exactly the first argument
(which may be the empty string, so names are not necessarily non-empty); no
later operation ever modifies a task's name — `update` and `mark` preserve
every name and `delete` only removes tasks. -/
theorem c3_add_name (args : List String) (now : Nat) (file : List Task)
    (name st : String) (rest : List String) :
    cmdAdd [] now file = ⟨file, false, 1, [], ["Usage: add <name> [description...]"]⟩
    ∧ (cmdAdd (name :: rest) now file).file =
        file ++ [{ id := .num (getNextId file), name := name,
                   description := if rest.isEmpty then "" else String.intercalate " " rest,
                   status := "todo", createdAt := now, updatedAt := now }]
    ∧ (cmdUpdate args now file).file.map Task.name = file.map Task.name
    ∧ (cmdMark args st now file).file.map Task.name = file.map Task.name
    ∧ ((cmdDelete args file).file.map Task.name).Sublist (file.map Task.name) :=
  ⟨rfl, cmdAdd_cons_file name rest now file, names_cmdUpdate args now file,
   names_cmdMark args st now file, names_cmdDelete args file⟩

/-- C4: when the parsed id matches no stored task, `update`, `delete`,
`mark-in-progress` and `mark-done` all print a not-found error to standard
error, exit with status 1, perform no save, and leave the data file
unchanged. -/
theorem c4_not_found (file : List Task) (a0 d0 : String) (ds rest : List String)
    (now : Nat) (id : Int)
    (hp : parseIntDec a0 = some id)
    (hno : ∀ t ∈ file, t.id.toNumber ≠ some id) :
    cmdUpdate (a0 :: d0 :: ds) now file =
      ⟨file, false, 1, [], [s!"Error: khong tim thay task voi id {id}"]⟩
    ∧ cmdDelete (a0 :: rest) file =
      ⟨file, false, 1, [], [s!"Error: khong tim thay task voi id {id}"]⟩
    ∧ cmdMark (a0 :: rest) "in-progress" now file =
      ⟨file, false, 1, [], [s!"Error: khong tim thay task voi id {id}"]⟩
    ∧ cmdMark (a0 :: rest) "done" now file =
      ⟨file, false, 1, [], [s!"Error: khong tim thay task voi id {id}"]⟩ := by
  have hany := any_idMatches_false file id hno
  have hfil := filter_idMatches_self file id hno
  refine ⟨?_, ?_, ?_, ?_⟩
  · simp only [cmdUpdate, hp]
    rw [if_neg (by rw [hany]; exact Bool.false_ne_true)]
  · simp only [cmdDelete, hp]
    rw [if_pos (by rw [hfil])]
  · simp only [cmdMark, hp]
    rw [if_neg (by rw [hany]; exact Bool.false_ne_true)]
  · simp only [cmdMark, hp]
    rw [if_neg (by rw [hany]; exact Bool.false_ne_true)]

/-- Witness for C4 at a concrete store and id. -/
theorem c4_not_found_witness :
    cmdUpdate ["99", "x"] 5 [⟨.num 1, "A", "", "todo", 0, 0⟩] =
      ⟨[⟨.num 1, "A", "", "todo", 0, 0⟩], false, 1, [],
        [s!"Error: khong tim thay task voi id {(99 : Int)}"]⟩
    ∧ cmdDelete ["99"] [⟨.num 1, "A", "", "todo", 0, 0⟩] =
      ⟨[⟨.num 1, "A", "", "todo", 0, 0⟩], false, 1, [],
        [s!"Error: khong tim thay task voi id {(99 : Int)}"]⟩
    ∧ cmdMark ["99"] "in-progress" 5 [⟨.num 1, "A", "", "todo", 0, 0⟩] =
      ⟨[⟨.num 1, "A", "", "todo", 0, 0⟩], false, 1, [],
        [s!"Error: khong tim thay task voi id {(99 : Int)}"]⟩
    ∧ cmdMark ["99"] "done" 5 [⟨.num 1, "A", "", "todo", 0, 0⟩] =
      ⟨[⟨.num 1, "A", "", "todo", 0, 0⟩], false, 1, [],
        [s!"Error: khong tim thay task voi id {(99 : Int)}"]⟩ :=
  c4_not_found [⟨.num 1, "A", "", "todo", 0, 0⟩] "99" "x" [] [] 5 99
    (by decide) (by decide)

/-- C5, counterexample: blank file content cannot be parsed as JSON (the
parser models `JSON.parse` throwing on it), yet `loadTasks` returns the
empty collection without emitting the warning — the claim that every
unparseable content warns is false. -/
theorem c5_counterexample :
    ((fun _ => (none : Option JsonVal)) "") = (none : Option JsonVal)
    ∧ (loadTasks (some "") (fun _ => none)).warned = false
    ∧ (loadTasks (some "") (fun _ => none)).tasks = [] :=
  ⟨rfl, rfl, rfl⟩

/-- C5 (amended): an absent file loads as the empty collection; blank
(empty or whitespace-only) content loads as empty with no warning — even
though it is not parseable JSON; non-blank content that fails to parse
warns and loads as empty, without a fatal exit; a parsed non-array loads as
empty silently; a parsed array loads as its tasks. -/
theorem c5_load_behavior (p : String → Option JsonVal)
    (blankRaw badRaw arrRaw othRaw : String) (ts : List Task)
    (hblank : (trimChars blankRaw.toList).isEmpty = true)
    (hbad1 : (trimChars badRaw.toList).isEmpty = false) (hbad2 : p badRaw = none)
    (ha1 : (trimChars arrRaw.toList).isEmpty = false) (ha2 : p arrRaw = some (.arr ts))
    (ho1 : (trimChars othRaw.toList).isEmpty = false) (ho2 : p othRaw = some .other) :
    loadTasks none p = ⟨[], false⟩
    ∧ loadTasks (some blankRaw) p = ⟨[], false⟩
    ∧ loadTasks (some badRaw) p = ⟨[], true⟩
    ∧ loadTasks (some arrRaw) p = ⟨ts, false⟩
    ∧ loadTasks (some othRaw) p = ⟨[], false⟩ := by
  refine ⟨rfl, ?_, ?_, ?_, ?_⟩
  · simp only [loadTasks]
    rw [if_pos hblank]
  · simp only [loadTasks]
    rw [if_neg (by rw [hbad1]; exact Bool.false_ne_true), hbad2]
  · simp only [loadTasks]
    rw [if_neg (by rw [ha1]; exact Bool.false_ne_true), ha2]
  · simp only [loadTasks]
    rw [if_neg (by rw [ho1]; exact Bool.false_ne_true), ho2]

/-- Witness for C5 (amended) with a concrete parser and contents. -/
theorem c5_load_behavior_witness :
    loadTasks none
        (fun r => if r = "[]" then some (.arr []) else if r = "42" then some .other else none)
      = ⟨[], false⟩
    ∧ loadTasks (some "  ")
        (fun r => if r = "[]" then some (.arr []) else if r = "42" then some .other else none)
      = ⟨[], false⟩
    ∧ loadTasks (some "oops")
        (fun r => if r = "[]" then some (.arr []) else if r = "42" then some .other else none)
      = ⟨[], true⟩
    ∧ loadTasks (some "[]")
        (fun r => if r = "[]" then some (.arr []) else if r = "42" then some .other else none)
      = ⟨[], false⟩
    ∧ loadTasks (some "42")
        (fun r => if r = "[]" then some (.arr []) else if r = "42" then some .other else none)
      = ⟨[], false⟩ :=
  c5_load_behavior _ "  " "oops" "[]" "42" []
    (by decide) (by decide) (by decide) (by decide) (by decide) (by decide) (by decide)

/-- C8: every collection reachable from the empty store by a sequence of
the six commands (under a monotone clock) has pairwise-distinct positive
integer ids, every status among todo / in-progress / done, and
`updatedAt ≥ createdAt` on every task. -/
theorem c8_invariants (ops : List (Op × Nat)) (h : TimesMono 0 ops) :
    GoodStore (runOps ops []) := by
  have hinv : Inv [] 0 := by
    constructor
    · intro t ht
      cases ht
    · exact List.Pairwise.nil
  obtain ⟨b2, h2⟩ := inv_runOps ops [] 0 hinv h
  exact goodStore_of_inv _ b2 h2

/-- Witness for C8 at a concrete run. -/
theorem c8_invariants_witness :
    TimesMono 0 [(Op.add ["Task A"], 5), (Op.markDone ["1"], 7)]
    ∧ GoodStore (runOps [(Op.add ["Task A"], 5), (Op.markDone ["1"], 7)] []) :=
  ⟨by decide, c8_invariants _ (by decide)⟩

theorem cmdUpdate_found (a0 d0 : String) (ds : List String) (now : Nat)
    (file : List Task) (id : Int)
    (hp : parseIntDec a0 = some id) (hfound : file.any (idMatches id) = true) :
    cmdUpdate (a0 :: d0 :: ds) now file =
      ⟨updateFirst (idMatches id)
         (fun t => { t with
            description := String.intercalate " " (d0 :: ds),
            updatedAt := now }) file,
       true, 0, [s!"Task {id} updated"], []⟩ := by
  simp only [cmdUpdate, hp]
  rw [if_pos hfound]

theorem cmdMark_found (a0 : String) (rest : List String) (newStatus : String)
    (now : Nat) (file : List Task) (id : Int)
    (hp : parseIntDec a0 = some id) (hfound : file.any (idMatches id) = true) :
    cmdMark (a0 :: rest) newStatus now file =
      ⟨updateFirst (idMatches id)
         (fun t => { t with status := newStatus, updatedAt := now }) file,
       true, 0, [s!"Task {id} marked as {newStatus}"], []⟩ := by
  simp only [cmdMark, hp]
  rw [if_pos hfound]

theorem cmdDelete_found (a0 : String) (rest : List String) (file : List Task)
    (id : Int)
    (hp : parseIntDec a0 = some id) (hfound : file.any (idMatches id) = true) :
    cmdDelete (a0 :: rest) file =
      ⟨file.filter (fun t => !(idMatches id t)), true, 0, [s!"Task {id} deleted"], []⟩ := by
  simp only [cmdDelete, hp]
  rw [if_neg (length_filter_not_ne (idMatches id) file hfound)]

/-- C6: when the parsed id matches a stored task, `update` rewrites only the
first matching task, replacing exactly its description and updatedAt; the
task's name, id, status and createdAt, and every task before and after it,
are unchanged; the handler saves and exits 0. -/
theorem c6_update_frame (file : List Task) (a0 d0 : String) (ds : List String)
    (now : Nat) (id : Int)
    (hp : parseIntDec a0 = some id)
    (hfound : file.any (idMatches id) = true) :
    ∃ pre t post t2,
      file = pre ++ t :: post
      ∧ (∀ u ∈ pre, idMatches id u = false)
      ∧ idMatches id t = true
      ∧ (cmdUpdate (a0 :: d0 :: ds) now file).file = pre ++ t2 :: post
      ∧ t2.description = String.intercalate " " (d0 :: ds)
      ∧ t2.updatedAt = now
      ∧ t2.name = t.name ∧ t2.id = t.id ∧ t2.status = t.status
      ∧ t2.createdAt = t.createdAt
      ∧ (cmdUpdate (a0 :: d0 :: ds) now file).saved = true
      ∧ (cmdUpdate (a0 :: d0 :: ds) now file).exitCode = 0 := by
  obtain ⟨pre, t, post, hs, hpre, hpt, hupd⟩ :=
    any_first_decomp (idMatches id)
      (fun t => { t with
         description := String.intercalate " " (d0 :: ds),
         updatedAt := now })
      file hfound
  refine ⟨pre, t, post,
    { t with
       description := String.intercalate " " (d0 :: ds),
       updatedAt := now },
    hs, hpre, hpt, ?_, rfl, rfl, rfl, rfl, rfl, rfl, ?_, ?_⟩
  · rw [cmdUpdate_found a0 d0 ds now file id hp hfound]
    exact hupd
  · rw [cmdUpdate_found a0 d0 ds now file id hp hfound]
  · rw [cmdUpdate_found a0 d0 ds now file id hp hfound]

/-- C7: applying `mark-done` twice to the same existing task is idempotent
on the status (the task found by the id is `done` after each application)
while `updatedAt` is refreshed to the invocation time by both
applications. -/
theorem c7_mark_done_idem (file : List Task) (a0 : String) (rest : List String)
    (time1 time2 : Nat) (id : Int)
    (hp : parseIntDec a0 = some id)
    (hfound : file.any (idMatches id) = true) :
    ∃ u1 u2,
      ((cmdMark (a0 :: rest) "done" time1 file).file.find? (idMatches id) = some u1)
      ∧ u1.status = "done" ∧ u1.updatedAt = time1
      ∧ ((cmdMark (a0 :: rest) "done" time2
            ((cmdMark (a0 :: rest) "done" time1 file).file)).file.find? (idMatches id)
          = some u2)
      ∧ u2.status = "done" ∧ u2.updatedAt = time2 := by
  obtain ⟨pre, t, post, hs, hpre, hpt, hupd⟩ :=
    any_first_decomp (idMatches id)
      (fun t => { t with status := "done", updatedAt := time1 }) file hfound
  have hm1 : idMatches id { t with status := "done", updatedAt := time1 } = true := hpt
  have hm2 : idMatches id { t with status := "done", updatedAt := time2 } = true := hpt
  have h1 : (cmdMark (a0 :: rest) "done" time1 file).file =
      pre ++ ({ t with status := "done", updatedAt := time1 }) :: post := by
    rw [cmdMark_found a0 rest "done" time1 file id hp hfound]
    exact hupd
  have hfound2 :
      (pre ++ ({ t with status := "done", updatedAt := time1 }) :: post).any
        (idMatches id) = true := by
    refine List.any_eq_true.mpr ⟨{ t with status := "done", updatedAt := time1 }, ?_, hm1⟩
    exact List.mem_append.mpr (Or.inr (List.mem_cons_self _ _))
  have h2 : (cmdMark (a0 :: rest) "done" time2
      (pre ++ ({ t with status := "done", updatedAt := time1 }) :: post)).file =
      pre ++ ({ t with status := "done", updatedAt := time2 }) :: post := by
    rw [cmdMark_found a0 rest "done" time2 _ id hp hfound2]
    exact updateFirst_append_first (idMatches id)
      (fun u => { u with status := "done", updatedAt := time2 })
      _ post hm1 pre hpre
  refine ⟨{ t with status := "done", updatedAt := time1 },
          { t with status := "done", updatedAt := time2 }, ?_, rfl, rfl, ?_, rfl, rfl⟩
  · rw [h1]
    exact find?_append_first (idMatches id) _ post hm1 pre hpre
  · rw [h1, h2]
    exact find?_append_first (idMatches id) _ post hm2 pre hpre

/-- C10: one `delete` invocation removes every task whose stored id coerces
to the input id, while `update`, `mark-in-progress` and `mark-done` modify
only the first such task in stored order, leaving later matches
untouched. -/
theorem c10_delete_all_update_first (file : List Task) (a0 d0 : String)
    (rest : List String) (now : Nat) (id : Int)
    (hp : parseIntDec a0 = some id)
    (hfound : file.any (idMatches id) = true) :
    (cmdDelete (a0 :: rest) file).file = file.filter (fun t => !(idMatches id t))
    ∧ (cmdDelete (a0 :: rest) file).exitCode = 0
    ∧ (∀ u ∈ (cmdDelete (a0 :: rest) file).file, idMatches id u = false)
    ∧ ∃ pre t post,
        file = pre ++ t :: post
        ∧ (∀ u ∈ pre, idMatches id u = false)
        ∧ idMatches id t = true
        ∧ (cmdUpdate (a0 :: d0 :: rest) now file).file =
            pre ++ ({ t with
               description := String.intercalate " " (d0 :: rest),
               updatedAt := now }) :: post
        ∧ (cmdMark (a0 :: rest) "in-progress" now file).file =
            pre ++ ({ t with status := "in-progress", updatedAt := now }) :: post
        ∧ (cmdMark (a0 :: rest) "done" now file).file =
            pre ++ ({ t with status := "done", updatedAt := now }) :: post := by
  obtain ⟨pre, t, post, hs, hpre, hpt, hupd⟩ :=
    any_first_decomp (idMatches id)
      (fun t => { t with
         description := String.intercalate " " (d0 :: rest),
         updatedAt := now })
      file hfound
  refine ⟨?_, ?_, ?_, pre, t, post, hs, hpre, hpt, ?_, ?_, ?_⟩
  · rw [cmdDelete_found a0 rest file id hp hfound]
  · rw [cmdDelete_found a0 rest file id hp hfound]
  · rw [cmdDelete_found a0 rest file id hp hfound]
    intro u hu
    have h2 := (List.mem_filter.mp hu).2
    rwa [Bool.not_eq_true'] at h2
  · rw [cmdUpdate_found a0 d0 rest now file id hp hfound]
    exact hupd
  · rw [cmdMark_found a0 rest "in-progress" now file id hp hfound, hs]
    exact updateFirst_append_first (idMatches id)
      (fun u => { u with status := "in-progress", updatedAt := now }) t post hpt pre hpre
  · rw [cmdMark_found a0 rest "done" now file id hp hfound, hs]
    exact updateFirst_append_first (idMatches id)
      (fun u => { u with status := "done", updatedAt := now }) t post hpt pre hpre

/-- Witness for C6 at a concrete store. -/
theorem c6_update_frame_witness :
    parseIntDec "2" = some 2
    ∧ ([⟨.num 1, "A", "old", "todo", 0, 0⟩, ⟨.num 2, "B", "x", "todo", 0, 0⟩]
        : List Task).any (idMatches 2) = true
    ∧ ∃ pre t post t2,
        ([⟨.num 1, "A", "old", "todo", 0, 0⟩, ⟨.num 2, "B", "x", "todo", 0, 0⟩]
          : List Task) = pre ++ t :: post
        ∧ (∀ u ∈ pre, idMatches 2 u = false)
        ∧ idMatches 2 t = true
        ∧ (cmdUpdate ["2", "new", "desc"] 9
            [⟨.num 1, "A", "old", "todo", 0, 0⟩, ⟨.num 2, "B", "x", "todo", 0, 0⟩]).file
          = pre ++ t2 :: post
        ∧ t2.description = String.intercalate " " ("new" :: ["desc"])
        ∧ t2.updatedAt = 9
        ∧ t2.name = t.name ∧ t2.id = t.id ∧ t2.status = t.status
        ∧ t2.createdAt = t.createdAt
        ∧ (cmdUpdate ["2", "new", "desc"] 9
            [⟨.num 1, "A", "old", "todo", 0, 0⟩, ⟨.num 2, "B", "x", "todo", 0, 0⟩]).saved = true
        ∧ (cmdUpdate ["2", "new", "desc"] 9
            [⟨.num 1, "A", "old", "todo", 0, 0⟩, ⟨.num 2, "B", "x", "todo", 0, 0⟩]).exitCode = 0 :=
  ⟨by decide, by decide,
   c6_update_frame [⟨.num 1, "A", "old", "todo", 0, 0⟩, ⟨.num 2, "B", "x", "todo", 0, 0⟩]
     "2" "new" ["desc"] 9 2 (by decide) (by decide)⟩

/-- Witness for C7 at a concrete store marked at times 3 and 8. -/
theorem c7_mark_done_idem_witness :
    parseIntDec "1" = some 1
    ∧ ([⟨.num 1, "A", "", "todo", 0, 0⟩] : List Task).any (idMatches 1) = true
    ∧ ∃ u1 u2,
        ((cmdMark ["1"] "done" 3 [⟨.num 1, "A", "", "todo", 0, 0⟩]).file.find? (idMatches 1)
          = some u1)
        ∧ u1.status = "done" ∧ u1.updatedAt = 3
        ∧ ((cmdMark ["1"] "done" 8
              ((cmdMark ["1"] "done" 3 [⟨.num 1, "A", "", "todo", 0, 0⟩]).file)).file.find?
                (idMatches 1) = some u2)
        ∧ u2.status = "done" ∧ u2.updatedAt = 8 :=
  ⟨by decide, by decide,
   c7_mark_done_idem [⟨.num 1, "A", "", "todo", 0, 0⟩] "1" [] 3 8 1
     (by decide) (by decide)⟩

/-- Witness for C10 on a store holding two tasks whose ids (`2` and `"2"`)
coerce to the same number. -/
theorem c10_delete_all_update_first_witness :
    parseIntDec "2" = some 2
    ∧ ([⟨.num 2, "A", "", "todo", 0, 0⟩, ⟨.str "2", "B", "", "todo", 0, 0⟩]
        : List Task).any (idMatches 2) = true
    ∧ ((cmdDelete ["2"] [⟨.num 2, "A", "", "todo", 0, 0⟩, ⟨.str "2", "B", "", "todo", 0, 0⟩]).file
        = [⟨.num 2, "A", "", "todo", 0, 0⟩, ⟨.str "2", "B", "", "todo", 0, 0⟩].filter
            (fun t => !(idMatches 2 t))
       ∧ (cmdDelete ["2"] [⟨.num 2, "A", "", "todo", 0, 0⟩, ⟨.str "2", "B", "", "todo", 0, 0⟩]).exitCode = 0
       ∧ (∀ u ∈ (cmdDelete ["2"] [⟨.num 2, "A", "", "todo", 0, 0⟩, ⟨.str "2", "B", "", "todo", 0, 0⟩]).file,
            idMatches 2 u = false)
       ∧ ∃ pre t post,
           ([⟨.num 2, "A", "", "todo", 0, 0⟩, ⟨.str "2", "B", "", "todo", 0, 0⟩] : List Task)
             = pre ++ t :: post
           ∧ (∀ u ∈ pre, idMatches 2 u = false)
           ∧ idMatches 2 t = true
           ∧ (cmdUpdate ["2", "d"] 7 [⟨.num 2, "A", "", "todo", 0, 0⟩, ⟨.str "2", "B", "", "todo", 0, 0⟩]).file =
               pre ++ ({ t with
                  description := String.intercalate " " ("d" :: []),
                  updatedAt := 7 }) :: post
           ∧ (cmdMark ["2"] "in-progress" 7 [⟨.num 2, "A", "", "todo", 0, 0⟩, ⟨.str "2", "B", "", "todo", 0, 0⟩]).file =
               pre ++ ({ t with status := "in-progress", updatedAt := 7 }) :: post
           ∧ (cmdMark ["2"] "done" 7 [⟨.num 2, "A", "", "todo", 0, 0⟩, ⟨.str "2", "B", "", "todo", 0, 0⟩]).file =
               pre ++ ({ t with status := "done", updatedAt := 7 }) :: post) :=
  ⟨by decide, by decide,
   c10_delete_all_update_first
     [⟨.num 2, "A", "", "todo", 0, 0⟩, ⟨.str "2", "B", "", "todo", 0, 0⟩]
     "2" "d" [] 7 2 (by decide) (by decide)⟩

theorem digit_not_whitespace (c : Char) (h : c.isDigit = true) :
    c.isWhitespace = false := by
  rw [Bool.eq_false_iff]
  intro hw
  simp only [Char.isWhitespace, Bool.or_eq_true, decide_eq_true_eq] at hw
  rcases hw with ((rfl | rfl) | rfl) | rfl <;> exact absurd h (by decide)

theorem digit_ne_sign (c : Char) (h : c.isDigit = true) : c ≠ '-' ∧ c ≠ '+' := by
  constructor <;> rintro rfl <;> exact absurd h (by decide)

theorem takeWhile_append_all (p : Char → Bool) :
    ∀ (ds rest : List Char), (∀ c ∈ ds, p c = true) →
      (ds ++ rest).takeWhile p = ds ++ rest.takeWhile p := by
  intro ds
  induction ds with
  | nil => intro rest _; rfl
  | cons d ds ih =>
    intro rest hds
    rw [List.cons_append, List.takeWhile_cons,
      if_pos (hds d (List.mem_cons_self d ds)), ih rest
        (fun c hc => hds c (List.mem_cons_of_mem d hc))]
    rfl

theorem parseIntDec_digits_prefix (ds rest : List Char)
    (hne : ds ≠ []) (hdig : ∀ c ∈ ds, c.isDigit = true)
    (hrest : rest.takeWhile Char.isDigit = []) :
    parseIntDec ⟨ds ++ rest⟩ = some ((digitsToNat ds : Int)) := by
  obtain ⟨d, ds2, rfl⟩ : ∃ d ds2, ds = d :: ds2 := by
    cases ds with
    | nil => exact absurd rfl hne
    | cons d ds2 => exact ⟨d, ds2, rfl⟩
  have hd : d.isDigit = true := hdig d (List.mem_cons_self d ds2)
  have hw : d.isWhitespace = false := digit_not_whitespace d hd
  have hsign := digit_ne_sign d hd
  unfold parseIntDec
  have htl : (⟨(d :: ds2) ++ rest⟩ : String).toList = (d :: ds2) ++ rest := rfl
  rw [htl]
  have hdw : ((d :: ds2) ++ rest).dropWhile Char.isWhitespace = (d :: ds2) ++ rest := by
    rw [List.cons_append, List.dropWhile_cons,
      if_neg (by rw [hw]; exact Bool.false_ne_true)]
  rw [hdw]
  dsimp only
  have hh : ((d :: ds2) ++ rest).head? = some d := rfl
  rw [hh]
  have hc1 : ¬ ((some d : Option Char) = some '-') := by
    simp only [Option.some.injEq]
    exact hsign.1
  have hc2 : ¬ ((some d : Option Char) = some '-' ∨ (some d : Option Char) = some '+') := by
    intro hor
    rcases hor with h2 | h2
    · exact hsign.1 (Option.some.inj h2)
    · exact hsign.2 (Option.some.inj h2)
  rw [if_neg hc2, if_neg hc1]
  rw [takeWhile_append_all Char.isDigit (d :: ds2) rest hdig, hrest, List.append_nil]
  rw [if_neg (by simp)]
  rw [one_mul]

/-- C9: an id argument made of a digit prefix followed by non-digit junk
(for example `"2abc"`) parses to the digit prefix's value, and `update`,
`delete` and the two `mark` commands behave on it exactly as on any argument
parsing to that value; the invalid-id error (exit 1, no save, file
unchanged) occurs only when no leading integer can be parsed. -/
theorem c9_parseInt_junk (ds rest : List Char) (a0 bad d0 st : String)
    (r : List String) (now : Nat) (file : List Task)
    (hne : ds ≠ []) (hdig : ∀ c ∈ ds, c.isDigit = true)
    (hrest : rest.takeWhile Char.isDigit = [])
    (ha : parseIntDec a0 = some ((digitsToNat ds : Int)))
    (hbad : parseIntDec bad = none) :
    parseIntDec ⟨ds ++ rest⟩ = some ((digitsToNat ds : Int))
    ∧ cmdUpdate (⟨ds ++ rest⟩ :: d0 :: r) now file = cmdUpdate (a0 :: d0 :: r) now file
    ∧ cmdDelete (⟨ds ++ rest⟩ :: r) file = cmdDelete (a0 :: r) file
    ∧ cmdMark (⟨ds ++ rest⟩ :: r) st now file = cmdMark (a0 :: r) st now file
    ∧ cmdUpdate (bad :: d0 :: r) now file
        = ⟨file, false, 1, [], ["Error: id khong hop le"]⟩
    ∧ cmdDelete (bad :: r) file = ⟨file, false, 1, [], ["Error: id khong hop le"]⟩
    ∧ cmdMark (bad :: r) st now file = ⟨file, false, 1, [], ["Error: id khong hop le"]⟩ := by
  have h1 := parseIntDec_digits_prefix ds rest hne hdig hrest
  refine ⟨h1, ?_, ?_, ?_, ?_, ?_, ?_⟩
  · simp only [cmdUpdate, h1, ha]
  · simp only [cmdDelete, h1, ha]
  · simp only [cmdMark, h1, ha]
  · simp only [cmdUpdate, hbad]
  · simp only [cmdDelete, hbad]
  · simp only [cmdMark, hbad]

/-- Witness for C9 with the argument `"2abc"`. -/
theorem c9_parseInt_junk_witness :
    parseIntDec ⟨['2'] ++ ['a', 'b', 'c']⟩ = some ((digitsToNat ['2'] : Int))
    ∧ cmdUpdate (⟨['2'] ++ ['a', 'b', 'c']⟩ :: "x" :: []) 0 []
        = cmdUpdate ("2" :: "x" :: []) 0 []
    ∧ cmdDelete (⟨['2'] ++ ['a', 'b', 'c']⟩ :: []) []
        = cmdDelete ("2" :: []) []
    ∧ cmdMark (⟨['2'] ++ ['a', 'b', 'c']⟩ :: []) "done" 0 []
        = cmdMark ("2" :: []) "done" 0 []
    ∧ cmdUpdate ("abc" :: "x" :: []) 0 []
        = ⟨[], false, 1, [], ["Error: id khong hop le"]⟩
    ∧ cmdDelete ("abc" :: []) [] = ⟨[], false, 1, [], ["Error: id khong hop le"]⟩
    ∧ cmdMark ("abc" :: []) "done" 0 [] = ⟨[], false, 1, [], ["Error: id khong hop le"]⟩ :=
  c9_parseInt_junk ['2'] ['a', 'b', 'c'] "2" "abc" "x" "done" [] 0 []
    (by decide) (by decide) (by decide) (by decide) (by decide)

end TaskCli
